/-
Verification of the persistent memory store of `sentinelops`
(`src-tauri/src/services/memory_service.rs`).

The SQLite-backed store is modelled shallowly:
* a database is a list of rows (`Row` mirrors the `memories` table schema);
  SQL `WHERE` clauses become list filters, `UPDATE` becomes a pointwise map,
  `DELETE` a filter, `INSERT` an append;
* `f64` arithmetic is idealised as real arithmetic (`ℝ`); an `f32` value is
  represented by its 32-bit pattern (a `Nat < 2^32`) where the code moves raw
  bytes, and by an abstract valuation `f32val : Nat → ℝ` where the code does
  arithmetic on the decoded value (every `f32` is exactly representable as
  `f64`, so the `as f64` casts in the source are lossless);
* timestamps (`Utc::now().to_rfc3339()`) are passed in as an explicit `now`
  argument, and the `uuid::Uuid::new_v4()` id is an explicit argument whose
  freshness is a hypothesis (the code relies on v4-uuid uniqueness);
* text columns that hold JSON (`tags`, `source_message_ids`, `metadata`) are
  kept structured, since `serde_json` round-trips them exactly;
* the FTS5 engine (`MATCH` and `bm25`) is external to the repository, so it is
  a parameter: an arbitrary match predicate and an arbitrary raw score.
-/
import Mathlib

namespace SentinelOps

/-! ## Byte-level embedding serialization
(`f32_vec_to_bytes` / `bytes_to_f32_vec`, memory_service.rs lines 728–745).
An `f32` is its little-endian 32-bit pattern; `to_le_bytes`/`from_le_bytes`
transport the pattern byte for byte. -/

/-- `f32::to_le_bytes`: the four little-endian bytes of a 32-bit pattern. -/
def f32ToLeBytes (x : Nat) : List Nat :=
  [x % 256, x / 256 % 256, x / 65536 % 256, x / 16777216 % 256]

/-- `f32::from_le_bytes`: rebuild the 32-bit pattern from four bytes. -/
def f32FromLeBytes (b0 b1 b2 b3 : Nat) : Nat :=
  b0 + 256 * b1 + 65536 * b2 + 16777216 * b3

/-- `f32_vec_to_bytes`: `vec.iter().flat_map(|f| f.to_le_bytes()).collect()`. -/
def f32_vec_to_bytes (v : List Nat) : List Nat :=
  (v.map f32ToLeBytes).flatten

/-- Rust slice `chunks(4)`: split into blocks of 4, a shorter final block kept. -/
def chunks4 : List Nat → List (List Nat)
  | a :: b :: c :: d :: rest => [a, b, c, d] :: chunks4 rest
  | [] => []
  | rest => [rest]

/-- `bytes_to_f32_vec`: chunk into 4-byte groups, decode complete groups,
silently drop an incomplete trailing group (`filter_map` with the
`chunk.len() == 4` guard). -/
def bytes_to_f32_vec (bytes : List Nat) : List Nat :=
  (chunks4 bytes).filterMap fun chunk =>
    match chunk with
    | [b0, b1, b2, b3] => some (f32FromLeBytes b0 b1 b2 b3)
    | _ => none

/-! ## Cosine similarity (`cosine_similarity`, lines 711–726), over `ℝ`. -/

/-- `a.iter().zip(b.iter()).map(|(x, y)| x * y).sum()`. -/
def dotList (a b : List ℝ) : ℝ :=
  ((a.zip b).map fun p => p.1 * p.2).sum

/-- `a.iter().map(|x| x.powi(2)).sum()`. -/
def normSqList (a : List ℝ) : ℝ :=
  (a.map fun x => x ^ 2).sum

/-- The Euclidean norm `a.iter().map(|x| x.powi(2)).sum().sqrt()`. -/
noncomputable def norm2 (a : List ℝ) : ℝ :=
  Real.sqrt (normSqList a)

/-- `cosine_similarity` (lines 711–726): `0.0` on length mismatch or empty
input, `0.0` when either norm is zero, else `dot / (norm_a * norm_b)`. -/
noncomputable def cosine_similarity (a b : List ℝ) : ℝ :=
  if a.length ≠ b.length ∨ a = [] then 0
  else if norm2 a = 0 ∨ norm2 b = 0 then 0
  else dotList a b / (norm2 a * norm2 b)

theorem normSqList_nonneg (a : List ℝ) : 0 ≤ normSqList a := by
  unfold normSqList
  induction a with
  | nil => simp
  | cons x xs ih => simp only [List.map_cons, List.sum_cons]; positivity

theorem dotList_nil_left (b : List ℝ) : dotList [] b = 0 := by
  simp [dotList]

theorem dotList_nil_right (a : List ℝ) : dotList a [] = 0 := by
  cases a <;> simp [dotList]

theorem dotList_cons (x y : ℝ) (a b : List ℝ) :
    dotList (x :: a) (y :: b) = x * y + dotList a b := by
  simp [dotList]

theorem normSqList_cons (x : ℝ) (a : List ℝ) :
    normSqList (x :: a) = x ^ 2 + normSqList a := by
  simp [normSqList]

/-- Discrete Cauchy–Schwarz for the list dot product (zip truncates, and the
dropped tail of the longer list only grows its square sum). -/
theorem dotList_sq_le (a b : List ℝ) :
    dotList a b ^ 2 ≤ normSqList a * normSqList b := by
  induction a generalizing b with
  | nil =>
    simp [dotList_nil_left, normSqList]
  | cons x a ih =>
    cases b with
    | nil =>
      have := normSqList_nonneg (x :: a)
      simp [dotList_nil_right, normSqList]
    | cons y b =>
      have h := ih b
      have hA := normSqList_nonneg a
      have hB := normSqList_nonneg b
      rw [dotList_cons, normSqList_cons, normSqList_cons]
      rcases eq_or_lt_of_le hB with hB0 | hBpos
      · have hd2 : dotList a b ^ 2 = 0 := by
          have h0 : dotList a b ^ 2 ≤ 0 := by
            calc dotList a b ^ 2 ≤ normSqList a * normSqList b := h
              _ = 0 := by rw [← hB0, mul_zero]
          exact le_antisymm h0 (sq_nonneg _)
        have hd : dotList a b = 0 := by
          exact pow_eq_zero_iff (n := 2) (by norm_num) |>.mp hd2
        rw [hd, ← hB0]
        nlinarith [mul_nonneg hA (sq_nonneg y)]
      · -- certificate: B·S = (x·B − y·d)² + (y² + B)·(A·B − d²) with S the gap
        nlinarith [sq_nonneg (x * normSqList b - y * dotList a b),
          mul_nonneg (add_nonneg (sq_nonneg y) hB) (sub_nonneg.mpr h), hBpos]

/-- The dot product is bounded by the product of the Euclidean norms. -/
theorem dotList_le_norm2_mul (a b : List ℝ) :
    dotList a b ≤ norm2 a * norm2 b := by
  have h1 : dotList a b ≤ |dotList a b| := le_abs_self _
  have h2 : |dotList a b| = Real.sqrt (dotList a b ^ 2) := by
    rw [Real.sqrt_sq_eq_abs]
  have h3 : Real.sqrt (dotList a b ^ 2) ≤
      Real.sqrt (normSqList a * normSqList b) :=
    Real.sqrt_le_sqrt (dotList_sq_le a b)
  have h4 : Real.sqrt (normSqList a * normSqList b) = norm2 a * norm2 b :=
    Real.sqrt_mul (normSqList_nonneg a) _
  calc dotList a b ≤ |dotList a b| := h1
    _ = Real.sqrt (dotList a b ^ 2) := h2
    _ ≤ Real.sqrt (normSqList a * normSqList b) := h3
    _ = norm2 a * norm2 b := h4

/-- Cosine similarity never exceeds `1`. -/
theorem cosine_similarity_le_one (a b : List ℝ) : cosine_similarity a b ≤ 1 := by
  unfold cosine_similarity
  split
  · exact zero_le_one
  · split
    · exact zero_le_one
    · rename_i hlen hnz
      push_neg at hnz
      obtain ⟨ha, hb⟩ := hnz
      have ha' : 0 < norm2 a := lt_of_le_of_ne (Real.sqrt_nonneg _) (Ne.symm ha)
      have hb' : 0 < norm2 b := lt_of_le_of_ne (Real.sqrt_nonneg _) (Ne.symm hb)
      rw [div_le_one (by positivity)]
      simpa using dotList_le_norm2_mul a b

/-! ## Data model (`memories` table schema and Rust structs, lines 7–132). -/

/-- `MemoryType` (lines 10–14). -/
inductive MemoryType where
  | auto
  | user
  | conversation
deriving DecidableEq, Repr

/-- `MemoryType::from_str` (lines 25–32): unknown strings default to `User`. -/
def MemoryType.from_str (s : String) : MemoryType :=
  match s with
  | "auto" => .auto
  | "user" => .user
  | "conversation" => .conversation
  | _ => .user

/-- `MemoryType::as_str` (lines 17–23). -/
def MemoryType.as_str : MemoryType → String
  | .auto => "auto"
  | .user => "user"
  | .conversation => "conversation"

/-- One row of the `memories` table (schema lines 184–203). `embedding` is the
raw BLOB (little-endian bytes); `memory_type` is the TEXT column constrained by
the CHECK clause; `is_pinned` is stored as 0/1 and modelled as `Bool`; the JSON
text columns (`source_message_ids`, `tags`) are kept structured and `metadata`
is kept as its opaque serialized text. -/
structure Row where
  id : String
  workspace_id : String
  content : String
  summary : Option String
  memory_type : String
  source_conversation_id : Option String
  source_message_ids : Option (List String)
  embedding : Option (List Nat)
  embedding_model : Option String
  tags : Option (List String)
  importance : Int
  access_count : Int
  last_accessed_at : Option String
  created_at : String
  updated_at : String
  expires_at : Option String
  is_pinned : Bool
  metadata : Option String
deriving DecidableEq, Repr

/-- The `Memory` struct (lines 38–57): the row as surfaced by `row_to_memory`
(no `embedding` field; `memory_type` decoded through `MemoryType::from_str`). -/
structure Memory where
  id : String
  workspace_id : String
  content : String
  summary : Option String
  memory_type : MemoryType
  source_conversation_id : Option String
  source_message_ids : Option (List String)
  embedding_model : Option String
  tags : Option (List String)
  importance : Int
  access_count : Int
  last_accessed_at : Option String
  created_at : String
  updated_at : String
  expires_at : Option String
  is_pinned : Bool
  metadata : Option String
deriving DecidableEq, Repr

/-- `row_to_memory` (lines 684–708). -/
def row_to_memory (r : Row) : Memory :=
  { id := r.id
    workspace_id := r.workspace_id
    content := r.content
    summary := r.summary
    memory_type := MemoryType.from_str r.memory_type
    source_conversation_id := r.source_conversation_id
    source_message_ids := r.source_message_ids
    embedding_model := r.embedding_model
    tags := r.tags
    importance := r.importance
    access_count := r.access_count
    last_accessed_at := r.last_accessed_at
    created_at := r.created_at
    updated_at := r.updated_at
    expires_at := r.expires_at
    is_pinned := r.is_pinned
    metadata := r.metadata }

/-- `MemoryWithScore` (lines 62–66). -/
structure MemoryWithScore where
  memory : Memory
  score : ℝ
  match_type : String

/-- `CreateMemoryInput` (lines 99–109). -/
structure CreateMemoryInput where
  content : String
  summary : Option String
  memory_type : Option String
  tags : Option (List String)
  importance : Option Int
  is_pinned : Option Bool
  source_conversation_id : Option String
  source_message_ids : Option (List String)
  metadata : Option String

/-- `UpdateMemoryInput` (lines 114–121). -/
structure UpdateMemoryInput where
  content : Option String
  summary : Option String
  tags : Option (List String)
  importance : Option Int
  is_pinned : Option Bool
  metadata : Option String

/-- `MemoryFilters` (lines 125–132). -/
structure MemoryFilters where
  memory_type : Option String
  tags : Option (List String)
  is_pinned : Option Bool
  limit : Option Nat
  offset : Option Nat
  sort_by : Option String

/-- `MemoryManager` (lines 135–138): the `db_path` only locates the file, the
durable state itself is passed around explicitly as a list of rows. -/
structure MemoryManager where
  workspace_id : String

/-- The durable state of one database file: the `memories` table. -/
abbrev DB : Type := List Row

/-! ## CRUD operations (lines 276–444). -/

/-- `get_memory` (lines 313–328): first row with this `id` in the store's
workspace (`WHERE id = ?1 AND workspace_id = ?2`), mapped by `row_to_memory`. -/
def get_memory (m : MemoryManager) (db : DB) (id : String) : Option Memory :=
  (List.find? (fun r => r.id == id && r.workspace_id == m.workspace_id) db).map
    row_to_memory

/-- The CHECK constraint of the schema: `type IN ('auto','user','conversation')`. -/
def validType (t : String) : Bool :=
  t == "auto" || t == "user" || t == "conversation"

/-- The row assembled by the INSERT of `create_memory` (lines 289–308):
`memory_type` defaults to `"user"`, `importance` to 5, `is_pinned` to false;
`access_count` starts at the column default 0; both timestamps are `now`. -/
def new_row (m : MemoryManager) (input : CreateMemoryInput) (id now : String) :
    Row :=
  { id := id
    workspace_id := m.workspace_id
    content := input.content
    summary := input.summary
    memory_type := input.memory_type.getD "user"
    source_conversation_id := input.source_conversation_id
    source_message_ids := input.source_message_ids
    embedding := none
    embedding_model := none
    tags := input.tags
    importance := input.importance.getD 5
    access_count := 0
    last_accessed_at := none
    created_at := now
    updated_at := now
    expires_at := none
    is_pinned := input.is_pinned.getD false
    metadata := input.metadata }

/-- `create_memory` (lines 276–311). `id` is the freshly drawn v4 uuid and
`now` the `Utc::now().to_rfc3339()` timestamp, both passed in explicitly; the
INSERT fails on a PRIMARY KEY collision or a CHECK violation, and the returned
memory is the re-read row. -/
def create_memory (m : MemoryManager) (db : DB) (input : CreateMemoryInput)
    (id now : String) : Except String (DB × Memory) :=
  if List.any db (fun r => r.id == id) then
    .error "Failed to create memory: UNIQUE constraint failed"
  else if validType (input.memory_type.getD "user") then
    let db' : DB := List.append db [new_row m input id now]
    match get_memory m db' id with
    | some mem => .ok (db', mem)
    | none => .error "Memory not found after creation"
  else
    .error "Failed to create memory: CHECK constraint failed"

/-- The column assignments of the `UPDATE memories SET ...` statement in
`update_memory` (lines 338–351): present input fields replace, absent ones
keep the value read back from the existing row; `updated_at` becomes `now`. -/
def update_row (input : UpdateMemoryInput) (existing : Memory) (now : String)
    (r : Row) : Row :=
  { r with
    content := input.content.getD existing.content
    summary := Option.or input.summary existing.summary
    tags := Option.or input.tags existing.tags
    importance := input.importance.getD existing.importance
    is_pinned := input.is_pinned.getD existing.is_pinned
    metadata := Option.or input.metadata existing.metadata
    updated_at := now }

/-- `update_memory` (lines 330–367): read-modify-write scoped to the store's
workspace; "Memory not found" if the id is absent from this workspace. -/
def update_memory (m : MemoryManager) (db : DB) (id : String)
    (input : UpdateMemoryInput) (now : String) : Except String (DB × Memory) :=
  match get_memory m db id with
  | none => .error "Memory not found"
  | some existing =>
    let db' : DB := db.map fun r =>
      if r.id == id && r.workspace_id == m.workspace_id then
        update_row input existing now r
      else r
    match get_memory m db' id with
    | some mem => .ok (db', mem)
    | none => .error "Memory not found after update"

/-- `delete_memory` (lines 369–379): `DELETE ... WHERE id = ?1 AND
workspace_id = ?2`; returns whether the statement removed any row. -/
def delete_memory (m : MemoryManager) (db : DB) (id : String) : DB × Bool :=
  let hit := fun (r : Row) => r.id == id && r.workspace_id == m.workspace_id
  let deleted := (db.filter hit).length
  (db.filter (fun r => !(hit r)), decide (0 < deleted))

/-- `store_embedding` (lines 537–551): encode the vector to bytes and UPDATE
the row's `embedding`, `embedding_model`, `updated_at` within the workspace.
The vector is a list of `f32` bit patterns. -/
def store_embedding (m : MemoryManager) (db : DB) (memory_id : String)
    (embedding : List Nat) (model : String) (now : String) : DB :=
  let embedding_bytes := f32_vec_to_bytes embedding
  db.map fun r =>
    if r.id == memory_id && r.workspace_id == m.workspace_id then
      { r with embedding := some embedding_bytes
               embedding_model := some model
               updated_at := now }
    else r

/-- `increment_access` (lines 553–564): `UPDATE memories SET access_count =
access_count + 1, last_accessed_at = ?1 WHERE id = ?2 AND workspace_id = ?3`
(note: `updated_at` is not in the SET list). -/
def increment_access (m : MemoryManager) (db : DB) (memory_id now : String) :
    DB :=
  db.map fun r =>
    if r.id == memory_id && r.workspace_id == m.workspace_id then
      { r with access_count := r.access_count + 1, last_accessed_at := some now }
    else r

/-! ## Sorting
Both SQL `ORDER BY` and Rust's stable `sort_by` are modelled by insertion
sort with a boolean "may precede" relation. -/

/-- Insert `x` in front of the first element it may precede. -/
def insertBy (le : α → α → Bool) (x : α) : List α → List α
  | [] => [x]
  | y :: ys => if le x y then x :: y :: ys else y :: insertBy le x ys

/-- Insertion sort by the relation `le`. -/
def sortBy (le : α → α → Bool) : List α → List α
  | [] => []
  | x :: xs => insertBy le x (sortBy le xs)

theorem length_insertBy (le : α → α → Bool) (x : α) (l : List α) :
    (insertBy le x l).length = l.length + 1 := by
  induction l with
  | nil => rfl
  | cons y ys ih =>
    unfold insertBy
    split
    · simp
    · simp [ih]

theorem length_sortBy (le : α → α → Bool) (l : List α) :
    (sortBy le l).length = l.length := by
  induction l with
  | nil => rfl
  | cons x xs ih => simp [sortBy, length_insertBy, ih]

theorem mem_insertBy (le : α → α → Bool) (x a : α) (l : List α) :
    a ∈ insertBy le x l ↔ a = x ∨ a ∈ l := by
  induction l with
  | nil => simp [insertBy]
  | cons y ys ih =>
    unfold insertBy
    split
    · simp [or_comm, or_assoc, or_left_comm]
    · simp only [List.mem_cons, ih]
      tauto

theorem mem_sortBy (le : α → α → Bool) (a : α) (l : List α) :
    a ∈ sortBy le l ↔ a ∈ l := by
  induction l with
  | nil => simp [sortBy]
  | cons x xs ih => simp [sortBy, mem_insertBy, ih]

/-- Insertion keeps a list pairwise-ordered when `le` is total and
transitive. -/
theorem pairwise_insertBy (le : α → α → Bool)
    (htot : ∀ a b, le a b = true ∨ le b a = true)
    (htrans : ∀ a b c, le a b = true → le b c = true → le a c = true)
    (x : α) (l : List α) (hl : l.Pairwise (fun a b => le a b = true)) :
    (insertBy le x l).Pairwise (fun a b => le a b = true) := by
  induction l with
  | nil => simp [insertBy]
  | cons y ys ih =>
    unfold insertBy
    rw [List.pairwise_cons] at hl
    split
    · rename_i hxy
      refine List.pairwise_cons.mpr ⟨?_, List.pairwise_cons.mpr hl⟩
      intro b hb
      rcases List.mem_cons.mp hb with hby | hbys
      · exact hby ▸ hxy
      · exact htrans x y b hxy (hl.1 b hbys)
    · rename_i hxy
      refine List.pairwise_cons.mpr ⟨?_, ih hl.2⟩
      intro b hb
      rcases (mem_insertBy le x b ys).mp hb with hbx | hbys
      · subst hbx
        rcases htot y b with h | h
        · exact h
        · exact absurd h (by simpa using hxy)
      · exact hl.1 b hbys

theorem pairwise_sortBy (le : α → α → Bool)
    (htot : ∀ a b, le a b = true ∨ le b a = true)
    (htrans : ∀ a b c, le a b = true → le b c = true → le a c = true)
    (l : List α) :
    (sortBy le l).Pairwise (fun a b => le a b = true) := by
  induction l with
  | nil => simp [sortBy]
  | cons x xs ih => exact pairwise_insertBy le htot htrans x (sortBy le xs) ih

/-! ## Listing (`list_memories`, lines 381–444). -/

/-- SQLite orders TEXT by byte-wise `memcmp`, which on UTF-8 agrees with
codepoint-lexicographic order; modelled on the codepoint list. -/
def strLeb : List Char → List Char → Bool
  | [], _ => true
  | _ :: _, [] => false
  | c :: cs, d :: ds => if c = d then strLeb cs ds else decide (c.toNat < d.toNat)

/-- `s ≤ t` for TEXT columns. -/
def textLe (s t : String) : Bool := strLeb s.data t.data

/-- The WHERE clause built by `list_memories` (lines 386–403): workspace
scope, the `"pinned"` pseudo-type, a literal type match otherwise, and the
`is_pinned` filter. -/
def filterPred (m : MemoryManager) (filters : MemoryFilters) (r : Row) : Bool :=
  r.workspace_id == m.workspace_id &&
  (match filters.memory_type with
   | none => true
   | some t => if t == "pinned" then r.is_pinned else r.memory_type == t) &&
  (match filters.is_pinned with
   | none => true
   | some p => r.is_pinned == p)

/-- `COALESCE(last_accessed_at, created_at)`. -/
def coalesceAccessed (r : Row) : String := r.last_accessed_at.getD r.created_at

/-- The ORDER BY relation chosen by `list_memories` (lines 405–409):
`importance DESC, created_at DESC`, or `COALESCE(last_accessed_at,
created_at) DESC`, or the default `created_at DESC`; `orderLe s a b` states
that `a` may precede `b`. -/
def orderLe (sort_key : Option String) (a b : Row) : Bool :=
  match sort_key with
  | some "importance" =>
    if a.importance == b.importance then textLe b.created_at a.created_at
    else decide (b.importance ≤ a.importance)
  | some "accessed" => textLe (coalesceAccessed b) (coalesceAccessed a)
  | _ => textLe b.created_at a.created_at

/-- `list_memories` (lines 381–444): the total is a separate `COUNT(*)` over
the same WHERE clause; the page applies ORDER BY, then OFFSET, then LIMIT
(defaults 100/0). -/
def list_memories (m : MemoryManager) (db : DB) (filters : MemoryFilters) :
    List Memory × Nat :=
  let matched := db.filter (filterPred m filters)
  let total := matched.length
  let limit := filters.limit.getD 100
  let offset := filters.offset.getD 0
  let page := ((sortBy (orderLe filters.sort_by) matched).drop offset).take limit
  (page.map row_to_memory, total)

/-! ## Search (lines 446–535). The FTS5 engine is external: `ftsMatch` is an
arbitrary match predicate over the indexed columns and `bm25` an arbitrary raw
relevance score (lower = better, typically negative). -/

/-- `search_keyword` (lines 446–479): rows of this workspace matching the
query, ordered by raw bm25 ascending, truncated to `limit`, exposed with the
negated score and `match_type = "keyword"`. -/
noncomputable def search_keyword (ftsMatch : String → Row → Bool)
    (bm25 : String → Row → ℝ) (m : MemoryManager) (db : DB) (query : String)
    (limit : Nat) : List MemoryWithScore :=
  let hits := db.filter fun r => ftsMatch query r && r.workspace_id == m.workspace_id
  let sorted := sortBy (fun a b => decide (bm25 query a ≤ bm25 query b)) hits
  (sorted.take limit).map fun r =>
    { memory := row_to_memory r, score := -(bm25 query r), match_type := "keyword" }

/-- The body of the `query_map` closure of `search_semantic` (lines 497–510)
combined with the SQL row filter `workspace_id = ?1 AND embedding IS NOT
NULL`: a row of another workspace or without an embedding contributes
nothing, otherwise the decoded blob is scored by cosine similarity. -/
noncomputable def semantic_entry (f32val : Nat → ℝ) (qe : List ℝ)
    (m : MemoryManager) (r : Row) : Option MemoryWithScore :=
  if r.workspace_id == m.workspace_id then
    match r.embedding with
    | some blob =>
      some { memory := row_to_memory r
             score := cosine_similarity qe ((bytes_to_f32_vec blob).map f32val)
             match_type := "semantic" }
    | none => none
  else none

/-- `search_semantic` (lines 481–521), parametrized by the `f32` valuation
used for the decoded blob: score every embedded row of this workspace by
cosine similarity against the query, keep scores `≥ threshold`, sort by score
descending, truncate to `limit`. -/
noncomputable def search_semantic (f32val : Nat → ℝ) (m : MemoryManager)
    (db : DB) (query_embedding : List ℝ) (limit : Nat) (threshold : ℝ) :
    List MemoryWithScore :=
  let results := db.filterMap (semantic_entry f32val query_embedding m)
  let filtered := results.filter fun r => decide (threshold ≤ r.score)
  (sortBy (fun a b => decide (b.score ≤ a.score)) filtered).take limit

/-- `search_hybrid` (lines 523–535): semantic first when an embedding is
supplied, returned verbatim when non-empty; otherwise keyword over the same
query text. -/
noncomputable def search_hybrid (ftsMatch : String → Row → Bool)
    (bm25 : String → Row → ℝ) (f32val : Nat → ℝ) (m : MemoryManager) (db : DB)
    (query : String) (query_embedding : Option (List ℝ)) (limit : Nat)
    (threshold : ℝ) : List MemoryWithScore :=
  match query_embedding with
  | some emb =>
    let semantic_results := search_semantic f32val m db emb limit threshold
    if semantic_results.isEmpty then search_keyword ftsMatch bm25 m db query limit
    else semantic_results
  | none => search_keyword ftsMatch bm25 m db query limit

/-! ## Claim theorems -/

theorem bytes_to_f32_vec_length :
    ∀ bytes : List Nat, (bytes_to_f32_vec bytes).length = bytes.length / 4
  | [] => rfl
  | [_] => by simp [bytes_to_f32_vec, chunks4]
  | [_, _] => by simp [bytes_to_f32_vec, chunks4]
  | [_, _, _] => by simp [bytes_to_f32_vec, chunks4]
  | a :: b :: c :: d :: rest => by
    have ih := bytes_to_f32_vec_length rest
    simp only [bytes_to_f32_vec, chunks4, List.filterMap_cons] at ih ⊢
    simp only [List.length_cons, ih]
    omega

/-- C10: decoding inverts encoding — for every vector of `f32` bit patterns
(each below `2^32`), `bytes_to_f32_vec (f32_vec_to_bytes v) = v`; and decoding
an arbitrary byte string yields one value per complete 4-byte chunk, silently
dropping a trailing chunk of fewer than 4 bytes. -/
theorem embedding_serialization_roundtrip :
    (∀ v : List Nat, (∀ x ∈ v, x < 2 ^ 32) →
      bytes_to_f32_vec (f32_vec_to_bytes v) = v) ∧
    (∀ bytes : List Nat, (bytes_to_f32_vec bytes).length = bytes.length / 4) := by
  constructor
  · intro v hv
    induction v with
    | nil => rfl
    | cons x v ih =>
      have hx : x < 2 ^ 32 := hv x (List.mem_cons_self x v)
      have hv' : ∀ y ∈ v, y < 2 ^ 32 := fun y hy => hv y (List.mem_cons_of_mem x hy)
      have hbytes : f32_vec_to_bytes (x :: v) =
          x % 256 :: x / 256 % 256 :: x / 65536 % 256 :: x / 16777216 % 256 ::
            f32_vec_to_bytes v := by
        simp [f32_vec_to_bytes, f32ToLeBytes]
      rw [hbytes]
      simp only [bytes_to_f32_vec, chunks4, List.filterMap_cons]
      rw [show f32FromLeBytes (x % 256) (x / 256 % 256) (x / 65536 % 256)
          (x / 16777216 % 256) = x by unfold f32FromLeBytes; omega]
      have ihr : (chunks4 (f32_vec_to_bytes v)).filterMap
          (fun chunk => match chunk with
            | [b0, b1, b2, b3] => some (f32FromLeBytes b0 b1 b2 b3)
            | _ => none) = v := ih hv'
      rw [ihr]
  · exact bytes_to_f32_vec_length

/-- Witness for C10 at a concrete vector of bit patterns. -/
theorem embedding_serialization_roundtrip_witness :
    bytes_to_f32_vec (f32_vec_to_bytes [1, 4294967295, 305419896]) =
      [1, 4294967295, 305419896] :=
  embedding_serialization_roundtrip.1 [1, 4294967295, 305419896] (by decide)

/-- C3: for equal-length vectors with nonzero norms, `cosine_similarity`
equals `dot(a,b) / (|a|·|b|)`; and it is exactly `0` whenever either vector is
empty or either norm is zero. -/
theorem cosine_similarity_spec :
    (∀ a b : List ℝ, a.length = b.length → norm2 a ≠ 0 → norm2 b ≠ 0 →
      cosine_similarity a b = dotList a b / (norm2 a * norm2 b)) ∧
    (∀ a b : List ℝ, a = [] ∨ b = [] ∨ norm2 a = 0 ∨ norm2 b = 0 →
      cosine_similarity a b = 0) := by
  constructor
  · intro a b hlen ha hb
    have hane : a ≠ [] := by
      intro h
      apply ha
      rw [h]
      simp [norm2, normSqList]
    rw [cosine_similarity, if_neg (by push_neg; exact ⟨hlen, hane⟩),
      if_neg (by push_neg; exact ⟨ha, hb⟩)]
  · intro a b h
    rcases h with ha | hb | hn
    · rw [cosine_similarity, if_pos (Or.inr ha)]
    · by_cases hae : a = []
      · rw [cosine_similarity, if_pos (Or.inr hae)]
      · have : a.length ≠ b.length := by
          rw [hb]
          simpa using fun h => hae (List.eq_nil_of_length_eq_zero h)
        rw [cosine_similarity, if_pos (Or.inl this)]
    · by_cases hc : a.length ≠ b.length ∨ a = []
      · rw [cosine_similarity, if_pos hc]
      · rw [cosine_similarity, if_neg hc, if_pos hn]

/-- Witness for C3: the formula at `a = [3,4]`, `b = [4,3]`, and the zero edge
case at an empty vector. -/
theorem cosine_similarity_spec_witness :
    cosine_similarity [(3 : ℝ), 4] [4, 3] =
      dotList [(3 : ℝ), 4] [4, 3] / (norm2 [(3 : ℝ), 4] * norm2 [4, 3]) ∧
    cosine_similarity [] [(1 : ℝ)] = 0 := by
  have h34 : norm2 [(3 : ℝ), 4] = 5 := by
    simp only [norm2, normSqList, List.map_cons, List.map_nil, List.sum_cons,
      List.sum_nil]
    rw [show (3 : ℝ) ^ 2 + (4 ^ 2 + 0) = 5 ^ 2 by norm_num,
      Real.sqrt_sq (by norm_num)]
  have h43 : norm2 [(4 : ℝ), 3] = 5 := by
    simp only [norm2, normSqList, List.map_cons, List.map_nil, List.sum_cons,
      List.sum_nil]
    rw [show (4 : ℝ) ^ 2 + (3 ^ 2 + 0) = 5 ^ 2 by norm_num,
      Real.sqrt_sq (by norm_num)]
  constructor
  · exact cosine_similarity_spec.1 [3, 4] [4, 3] rfl
      (by rw [h34]; norm_num) (by rw [h43]; norm_num)
  · exact cosine_similarity_spec.2 [] [1] (Or.inl rfl)

theorem filter_length_pos_iff (p : α → Bool) (l : List α) :
    0 < (l.filter p).length ↔ ∃ x ∈ l, p x = true := by
  rw [List.length_pos]
  constructor
  · intro h
    match hm : l.filter p with
    | [] => exact absurd hm h
    | y :: ys =>
      have hy : y ∈ l.filter p := by rw [hm]; exact List.mem_cons_self y ys
      obtain ⟨hyl, hyp⟩ := List.mem_filter.mp hy
      exact ⟨y, hyl, hyp⟩
  · rintro ⟨x, hx, hp⟩ hnil
    have : x ∈ l.filter p := List.mem_filter.mpr ⟨hx, hp⟩
    rw [hnil] at this
    simp at this

/-- C8: `delete_memory` returns `true` exactly when a row with that id existed
in the store's workspace, a subsequent `get_memory` returns `none`, and a
second delete of the same id returns `false`. -/
theorem delete_memory_idempotent (m : MemoryManager) (db : DB) (id : String) :
    ((delete_memory m db id).2 = true ↔
      ∃ r ∈ db, r.id = id ∧ r.workspace_id = m.workspace_id) ∧
    get_memory m (delete_memory m db id).1 id = none ∧
    (delete_memory m (delete_memory m db id).1 id).2 = false := by
  refine ⟨?_, ?_, ?_⟩
  · simp only [delete_memory, decide_eq_true_eq]
    rw [filter_length_pos_iff]
    constructor
    · rintro ⟨x, hx, hp⟩
      rw [Bool.and_eq_true, beq_iff_eq, beq_iff_eq] at hp
      exact ⟨x, hx, hp⟩
    · rintro ⟨x, hx, h1, h2⟩
      exact ⟨x, hx, by rw [Bool.and_eq_true, beq_iff_eq, beq_iff_eq]; exact ⟨h1, h2⟩⟩
  · simp only [delete_memory, get_memory, Option.map_eq_none']
    rw [List.find?_eq_none]
    intro x hx
    have := (List.mem_filter.mp hx).2
    simp only [Bool.not_eq_eq_eq_not, Bool.not_true] at this
    simp [this]
  · simp only [delete_memory, decide_eq_false_iff_not]
    intro hpos
    rw [filter_length_pos_iff] at hpos
    obtain ⟨x, hx, hp⟩ := hpos
    have := (List.mem_filter.mp hx).2
    rw [hp] at this
    simp at this

/-! Concrete sample data shared by several witnesses. -/

/-- A store for workspace id `"ws1"`. -/
def mgr1 : MemoryManager := ⟨"ws1"⟩

/-- One persisted row of workspace `"ws1"`. -/
def sampleRow : Row :=
  { id := "m1"
    workspace_id := "ws1"
    content := "loves dark mode UI"
    summary := none
    memory_type := "user"
    source_conversation_id := none
    source_message_ids := none
    embedding := none
    embedding_model := none
    tags := some ["ui"]
    importance := 5
    access_count := 0
    last_accessed_at := none
    created_at := "2024-01-01T00:00:00+00:00"
    updated_at := "2024-01-01T00:00:00+00:00"
    expires_at := none
    is_pinned := false
    metadata := none }

/-- Witness for C8: concrete delete returns `true`, then `false`. -/
theorem delete_memory_idempotent_witness :
    (delete_memory mgr1 [sampleRow] "m1").2 = true ∧
    (delete_memory mgr1 (delete_memory mgr1 [sampleRow] "m1").1 "m1").2 = false := by
  refine ⟨?_, (delete_memory_idempotent mgr1 [sampleRow] "m1").2.2⟩
  exact (delete_memory_idempotent mgr1 [sampleRow] "m1").1.mpr
    ⟨sampleRow, List.mem_cons_self _ _, rfl, rfl⟩

/-- Counterexample to C5 as stated: on an existing row, `increment_access`
leaves `updated_at` untouched (the UPDATE statement's SET list has only
`access_count` and `last_accessed_at`), so the row's `updated_at` is not the
current time passed to the call. -/
theorem increment_access_updated_at_counterexample :
    (increment_access mgr1 [sampleRow] "m1" "2024-02-02T00:00:00+00:00").map
      Row.updated_at ≠ ["2024-02-02T00:00:00+00:00"] := by decide

theorem mem_map_if_cases {g : Row → Row} {id ws : String} {db : List Row}
    {r : Row}
    (hr : r ∈ db.map fun x =>
      if x.id == id && x.workspace_id == ws then g x else x) :
    (∃ x ∈ db, (x.id == id && x.workspace_id == ws) = true ∧ r = g x) ∨
    (r ∈ db ∧ (r.id == id && r.workspace_id == ws) = false) := by
  obtain ⟨x, hx, hfx⟩ := List.mem_map.mp hr
  by_cases hhit : (x.id == id && x.workspace_id == ws) = true
  · left
    refine ⟨x, hx, hhit, ?_⟩
    rw [← hfx, if_pos hhit]
  · right
    have hxr : x = r := by rw [← hfx, if_neg hhit]
    subst hxr
    exact ⟨hx, by simpa using hhit⟩

theorem get_memory_eq_some {m : MemoryManager} {db : DB} {id : String}
    {mem : Memory} (h : get_memory m db id = some mem) :
    ∃ r ∈ db, (r.id == id && r.workspace_id == m.workspace_id) = true ∧
      mem = row_to_memory r := by
  unfold get_memory at h
  rw [Option.map_eq_some'] at h
  obtain ⟨r, hfind, hmem⟩ := h
  refine ⟨r, List.mem_of_find?_eq_some hfind, ?_, hmem.symm⟩
  have hp := List.find?_some hfind
  simpa using hp

theorem forall₂_map_self {α : Type} {R : α → α → Prop} {f : α → α}
    (l : List α) (h : ∀ x ∈ l, R x (f x)) : List.Forall₂ R l (l.map f) := by
  induction l with
  | nil => simp
  | cons x xs ih =>
    simp only [List.map_cons, List.forall₂_cons]
    exact ⟨h x (List.mem_cons_self x xs),
      ih fun y hy => h y (List.mem_cons_of_mem x hy)⟩

/-- C5 (amended): a successful `update_memory` and `store_embedding` on an
existing memory set the row's `updated_at` to the current time, but
`increment_access` leaves every row's `updated_at` unchanged: row by row it
increments `access_count` and sets `last_accessed_at` to the current time on
the target row and leaves every other row untouched. -/
theorem mutating_updated_at (m : MemoryManager) (db : DB) (id now : String) :
    (∀ input db' mem, update_memory m db id input now = .ok (db', mem) →
      mem.updated_at = now ∧
      ∀ r ∈ db', r.id = id → r.workspace_id = m.workspace_id →
        r.updated_at = now) ∧
    (∀ emb mdl, ∀ r ∈ store_embedding m db id emb mdl now,
      r.id = id → r.workspace_id = m.workspace_id → r.updated_at = now) ∧
    List.Forall₂ (fun r r' =>
      r'.updated_at = r.updated_at ∧
      (r.id = id → r.workspace_id = m.workspace_id →
        r'.access_count = r.access_count + 1 ∧
        r'.last_accessed_at = some now) ∧
      (¬(r.id = id ∧ r.workspace_id = m.workspace_id) → r' = r))
      db (increment_access m db id now) := by
  have hrow : ∀ input existing r,
      (update_row input existing now r).updated_at = now := fun _ _ _ => rfl
  refine ⟨?_, ?_, ?_⟩
  · intro input db' mem h
    unfold update_memory at h
    split at h
    · exact absurd h (by simp)
    · rename_i existing hget
      dsimp only at h
      split at h
      · rename_i mem2 hget2
        cases h
        have key : ∀ r ∈ db.map fun x =>
            if x.id == id && x.workspace_id == m.workspace_id then
              update_row input existing now x
            else x,
            r.id = id → r.workspace_id = m.workspace_id →
              r.updated_at = now := by
          intro r hr hid hws
          rcases mem_map_if_cases hr with ⟨x, _, _, hrx⟩ | ⟨_, hfalse⟩
          · rw [hrx]; exact hrow input existing x
          · rw [hid, hws] at hfalse
            simp at hfalse
        refine ⟨?_, key⟩
        obtain ⟨r0, hr0, hp, hmem⟩ := get_memory_eq_some hget2
        rw [Bool.and_eq_true, beq_iff_eq, beq_iff_eq] at hp
        rw [hmem]
        exact key r0 hr0 hp.1 hp.2
      · exact absurd h (by simp)
  · intro emb mdl r hr hid hws
    unfold store_embedding at hr
    rcases mem_map_if_cases hr with ⟨x, _, _, hrx⟩ | ⟨_, hfalse⟩
    · rw [hrx]
    · rw [hid, hws] at hfalse
      simp at hfalse
  · unfold increment_access
    apply forall₂_map_self
    intro x _
    by_cases hhit : (x.id == id && x.workspace_id == m.workspace_id) = true
    · rw [if_pos hhit]
      rw [Bool.and_eq_true, beq_iff_eq, beq_iff_eq] at hhit
      exact ⟨rfl, fun _ _ => ⟨rfl, rfl⟩, fun hc => absurd hhit hc⟩
    · rw [if_neg hhit]
      refine ⟨rfl, ?_, fun _ => rfl⟩
      intro hid hws
      exact absurd (by simp [hid, hws] :
        (x.id == id && x.workspace_id == m.workspace_id) = true) hhit

/-- A partial update touching only `importance`. -/
def upd1 : UpdateMemoryInput :=
  { content := none, summary := none, tags := none, importance := some 9
    is_pinned := none, metadata := none }

/-- The row `sampleRow` after `upd1` at time `"T1"`. -/
def row1u : Row := { sampleRow with importance := 9, updated_at := "T1" }

/-- Witness for C5 (amended) at concrete inputs: the importance-only update
stamps `updated_at = "T1"`, and `increment_access` bumps `access_count`, sets
`last_accessed_at`, and keeps `updated_at` on the concrete target row. -/
theorem mutating_updated_at_witness :
    (row_to_memory row1u).updated_at = "T1" ∧
    (increment_access mgr1 [sampleRow] "m1" "T2").map Row.access_count =
      [sampleRow.access_count + 1] ∧
    (increment_access mgr1 [sampleRow] "m1" "T2").map Row.last_accessed_at =
      [some "T2"] ∧
    (increment_access mgr1 [sampleRow] "m1" "T2").map Row.updated_at =
      [sampleRow.updated_at] := by
  have h := (mutating_updated_at mgr1 [sampleRow] "m1" "T2").2.2
  rw [List.forall₂_cons_left_iff] at h
  obtain ⟨b, u, hab, hrest, heq⟩ := h
  rw [List.forall₂_nil_left_iff] at hrest
  subst hrest
  obtain ⟨hupd, htarget, _⟩ := hab
  obtain ⟨hacc, hlast⟩ := htarget rfl rfl
  refine ⟨((mutating_updated_at mgr1 [sampleRow] "m1" "T1").1 upd1 [row1u]
      (row_to_memory row1u) (by rfl)).1, ?_, ?_, ?_⟩
  · rw [heq, List.map_cons, List.map_nil, hacc]
  · rw [heq, List.map_cons, List.map_nil, hlast]
  · rw [heq, List.map_cons, List.map_nil, hupd]

theorem find?_map_pres {α : Type} {p : α → Bool} {f : α → α}
    (hp : ∀ x, p (f x) = p x) (l : List α) :
    List.find? p (l.map f) = (List.find? p l).map f := by
  induction l with
  | nil => rfl
  | cons x xs ih =>
    simp only [List.map_cons, List.find?_cons]
    cases hpx : p x with
    | true => simp [hp x, hpx]
    | false => simp [hp x, hpx, ih]

/-- C6: `update_memory` fails with "Memory not found" exactly on ids absent
from this workspace; on success, every row keeps its identity and every column
outside the updatable shape (id, workspace, type, provenance, embedding and
its model, access bookkeeping, `created_at`, `expires_at`), rows other than
the target are untouched, and the returned memory carries exactly the present
input fields over the prior first matching row, plus `updated_at = now`. -/
theorem update_memory_partial_update (m : MemoryManager) (db : DB)
    (id : String) (input : UpdateMemoryInput) (now : String) :
    (get_memory m db id = none →
      update_memory m db id input now = .error "Memory not found") ∧
    (get_memory m db id ≠ none →
      ∃ db' mem, update_memory m db id input now = .ok (db', mem)) ∧
    (∀ db' mem, update_memory m db id input now = .ok (db', mem) →
      List.Forall₂ (fun r r' =>
        r'.id = r.id ∧ r'.workspace_id = r.workspace_id ∧
        r'.memory_type = r.memory_type ∧
        r'.source_conversation_id = r.source_conversation_id ∧
        r'.source_message_ids = r.source_message_ids ∧
        r'.embedding = r.embedding ∧
        r'.embedding_model = r.embedding_model ∧
        r'.access_count = r.access_count ∧
        r'.last_accessed_at = r.last_accessed_at ∧
        r'.created_at = r.created_at ∧
        r'.expires_at = r.expires_at ∧
        (¬(r.id = id ∧ r.workspace_id = m.workspace_id) → r' = r)) db db' ∧
      ∀ r0, List.find?
          (fun r => r.id == id && r.workspace_id == m.workspace_id) db =
            some r0 →
        mem.content = input.content.getD r0.content ∧
        mem.summary = Option.or input.summary r0.summary ∧
        mem.tags = Option.or input.tags r0.tags ∧
        mem.importance = input.importance.getD r0.importance ∧
        mem.is_pinned = input.is_pinned.getD r0.is_pinned ∧
        mem.metadata = Option.or input.metadata r0.metadata ∧
        mem.updated_at = now ∧
        mem.id = r0.id ∧ mem.workspace_id = r0.workspace_id ∧
        mem.memory_type = MemoryType.from_str r0.memory_type ∧
        mem.source_conversation_id = r0.source_conversation_id ∧
        mem.source_message_ids = r0.source_message_ids ∧
        mem.embedding_model = r0.embedding_model ∧
        mem.access_count = r0.access_count ∧
        mem.last_accessed_at = r0.last_accessed_at ∧
        mem.created_at = r0.created_at ∧
        mem.expires_at = r0.expires_at) := by
  have hpres : ∀ existing x,
      ((fun r : Row => r.id == id && r.workspace_id == m.workspace_id)
        (if x.id == id && x.workspace_id == m.workspace_id then
          update_row input existing now x else x)) =
      (x.id == id && x.workspace_id == m.workspace_id) := by
    intro existing x
    by_cases hx : (x.id == id && x.workspace_id == m.workspace_id) = true
    · simp only [if_pos hx]
      rfl
    · simp only [if_neg hx]
  refine ⟨?_, ?_, ?_⟩
  · intro hget
    unfold update_memory
    rw [hget]
  · intro hget
    cases hg : get_memory m db id with
    | none => exact absurd hg hget
    | some existing =>
      unfold update_memory
      rw [hg]
      dsimp only
      have hfind : List.find?
          (fun r => r.id == id && r.workspace_id == m.workspace_id) db ≠
            none := by
        intro hnone
        unfold get_memory at hg
        rw [hnone] at hg
        exact absurd hg (by simp)
      cases hf0 : List.find?
          (fun r => r.id == id && r.workspace_id == m.workspace_id) db with
      | none => exact absurd hf0 hfind
      | some r0 =>
        have : get_memory m (db.map fun x =>
            if x.id == id && x.workspace_id == m.workspace_id then
              update_row input existing now x else x) id =
            some (row_to_memory
              (if r0.id == id && r0.workspace_id == m.workspace_id then
                update_row input existing now r0 else r0)) := by
          unfold get_memory
          rw [find?_map_pres (hpres existing), hf0]
          rfl
        rw [this]
        exact ⟨_, _, rfl⟩
  · intro db' mem h
    unfold update_memory at h
    split at h
    · exact absurd h (by simp)
    · rename_i existing hget
      dsimp only at h
      split at h
      · rename_i mem2 hget2
        cases h
        constructor
        · apply forall₂_map_self
          intro x _
          by_cases hx : (x.id == id && x.workspace_id == m.workspace_id) = true
          · rw [if_pos hx]
            rw [Bool.and_eq_true, beq_iff_eq, beq_iff_eq] at hx
            exact ⟨rfl, rfl, rfl, rfl, rfl, rfl, rfl, rfl, rfl, rfl, rfl,
              fun hc => absurd hx hc⟩
          · rw [if_neg hx]
            exact ⟨rfl, rfl, rfl, rfl, rfl, rfl, rfl, rfl, rfl, rfl, rfl,
              fun _ => rfl⟩
        · intro r0 hf0
          have hex : existing = row_to_memory r0 := by
            unfold get_memory at hget
            rw [hf0] at hget
            simpa using hget.symm
          have hhit : (r0.id == id && r0.workspace_id == m.workspace_id) =
              true := by
            have := List.find?_some hf0
            simpa using this
          have hget2' : get_memory m (db.map fun x =>
              if x.id == id && x.workspace_id == m.workspace_id then
                update_row input existing now x else x) id =
              some (row_to_memory (update_row input existing now r0)) := by
            unfold get_memory
            rw [find?_map_pres (hpres existing), hf0]
            simp only [Option.map_some']
            rw [if_pos hhit]
          have hmem2 : mem = row_to_memory (update_row input existing now r0) := by
            rw [hget2] at hget2'
            simpa using hget2'
          subst hmem2 hex
          exact ⟨rfl, rfl, rfl, rfl, rfl, rfl, rfl, rfl, rfl, rfl, rfl, rfl,
            rfl, rfl, rfl, rfl, rfl⟩
      · exact absurd h (by simp)

/-- Witness for C6: updating only `importance` at a concrete row changes
`importance` and `updated_at` and preserves `content`. -/
theorem update_memory_partial_update_witness :
    (row_to_memory row1u).importance = 9 ∧
    (row_to_memory row1u).content = sampleRow.content ∧
    (row_to_memory row1u).updated_at = "T1" := by
  have h := (update_memory_partial_update mgr1 [sampleRow] "m1" upd1 "T1").2.2
    [row1u] (row_to_memory row1u) (by rfl)
  have h2 := h.2 sampleRow (by rfl)
  exact ⟨h2.2.2.2.1, h2.1, h2.2.2.2.2.2.2.1⟩

theorem find?_append_none {α : Type} {p : α → Bool} {l₁ : List α}
    (l₂ : List α) (h : List.find? p l₁ = none) :
    List.find? p (l₁ ++ l₂) = List.find? p l₂ := by
  induction l₁ with
  | nil => rfl
  | cons x xs ih =>
    cases hpx : p x with
    | true =>
      rw [List.find?_cons_of_pos _ hpx] at h
      exact absurd h (by simp)
    | false =>
      rw [List.find?_cons_of_neg _ (by simp [hpx])] at h
      rw [List.cons_append, List.find?_cons_of_neg _ (by simp [hpx])]
      exact ih h

/-- C7: creating a memory with a fresh id and a valid (or absent) type
succeeds, stamps `created_at = updated_at = now`, persists the row, and
returns the re-read row, which `get_memory` finds again; `content`, `tags`
and `importance` are the input's, with `importance` defaulting to 5 and
`memory_type` to `user` when absent. -/
theorem create_get_roundtrip (m : MemoryManager) (db : DB)
    (input : CreateMemoryInput) (id now : String)
    (hfresh : ∀ r ∈ db, r.id ≠ id)
    (hvalid : validType (input.memory_type.getD "user") = true) :
    ∃ db' mem, create_memory m db input id now = .ok (db', mem) ∧
      mem.id = id ∧
      mem.workspace_id = m.workspace_id ∧
      mem.content = input.content ∧
      mem.tags = input.tags ∧
      mem.importance = input.importance.getD 5 ∧
      mem.memory_type = MemoryType.from_str (input.memory_type.getD "user") ∧
      mem.created_at = now ∧ mem.updated_at = now ∧
      mem.access_count = 0 ∧ mem.is_pinned = input.is_pinned.getD false ∧
      get_memory m db' id = some mem := by
  have hnone : List.find?
      (fun r => r.id == id && r.workspace_id == m.workspace_id) db = none := by
    rw [List.find?_eq_none]
    intro x hx
    simp [hfresh x hx]
  have hany : List.any db (fun r => r.id == id) = false := by
    rw [List.any_eq_false]
    intro r hr
    simp [hfresh r hr]
  have hget : get_memory m (List.append db [new_row m input id now]) id =
      some (row_to_memory (new_row m input id now)) := by
    unfold get_memory
    rw [show List.append db [new_row m input id now] =
        db ++ [new_row m input id now] from rfl,
      find?_append_none _ hnone]
    simp [List.find?_cons, new_row]
  unfold create_memory
  rw [if_neg (by simp [hany]), if_pos hvalid]
  dsimp only
  rw [hget]
  exact ⟨_, _, rfl, rfl, rfl, rfl, rfl, rfl, rfl, rfl, rfl, rfl, rfl, hget⟩

/-- A creation input with only `content` and `tags` present. -/
def input1 : CreateMemoryInput :=
  { content := "hello", summary := none, memory_type := none
    tags := some ["t"], importance := none, is_pinned := none
    source_conversation_id := none, source_message_ids := none
    metadata := none }

/-- Witness for C7: concrete creation defaults `importance` to 5 and
`memory_type` to `user` and echoes the content. -/
theorem create_get_roundtrip_witness :
    (create_memory mgr1 [] input1 "id9" "T0").map
      (fun p => (p.2.content, p.2.importance, p.2.memory_type)) =
      .ok ("hello", 5, MemoryType.user) := by
  obtain ⟨db', mem, hok, hid, hws, hcon, htags, himp, htype, hcr, hup, hac,
      hpin, hget⟩ :=
    create_get_roundtrip mgr1 [] input1 "id9" "T0" (by simp) (by decide)
  rw [hok]
  simp only [Except.map]
  rw [hcon, himp, htype]
  rfl

/-- C9: the total returned by `list_memories` is the count of all rows
matching the filter in the store's workspace, independent of `limit` and
`offset`; with 15 matching rows, `limit = 5`, `offset = 10`, it returns 5
rows and `total = 15`. -/
theorem list_memories_total_count (m : MemoryManager) (db : DB)
    (filters : MemoryFilters) :
    (list_memories m db filters).2 =
      (db.filter (filterPred m filters)).length ∧
    (∀ l o, (list_memories m db
        { filters with limit := l, offset := o }).2 =
      (list_memories m db filters).2) ∧
    ((db.filter (filterPred m filters)).length = 15 →
      filters.limit = some 5 → filters.offset = some 10 →
      (list_memories m db filters).1.length = 5 ∧
      (list_memories m db filters).2 = 15) := by
  refine ⟨rfl, fun l o => rfl, ?_⟩
  intro h15 hlim hoff
  refine ⟨?_, h15⟩
  unfold list_memories
  dsimp only
  rw [hlim, hoff]
  simp [List.length_take, List.length_drop, length_sortBy, h15]

/-- Filters requesting page `limit = 5, offset = 10`. -/
def fl15 : MemoryFilters :=
  { memory_type := none, tags := none, is_pinned := none
    limit := some 5, offset := some 10, sort_by := none }

/-- Witness for C9: 15 matching rows, `limit = 5`, `offset = 10` gives a
5-row page with `total = 15`. -/
theorem list_memories_total_count_witness :
    (list_memories mgr1 (List.replicate 15 sampleRow) fl15).1.length = 5 ∧
    (list_memories mgr1 (List.replicate 15 sampleRow) fl15).2 = 15 :=
  (list_memories_total_count mgr1 (List.replicate 15 sampleRow) fl15).2.2
    (by decide) rfl rfl

theorem filter_filter_of_imp (p q : Row → Bool) (db : List Row)
    (himp : ∀ r, q r = true → p r = true) :
    (db.filter p).filter q = db.filter q := by
  induction db with
  | nil => rfl
  | cons x xs ih =>
    cases hpx : p x <;> cases hqx : q x
    · simp [List.filter_cons, hpx, hqx, ih]
    · exact absurd (himp x hqx) (by simp [hpx])
    · simp [List.filter_cons, hpx, hqx, ih]
    · simp [List.filter_cons, hpx, hqx, ih]

theorem filter_notws_map (w : String) (f : Row → Row)
    (hws : ∀ r, (f r).workspace_id = r.workspace_id)
    (hid : ∀ r, r.workspace_id ≠ w → f r = r) (db : List Row) :
    (db.map f).filter (fun r => !(r.workspace_id == w)) =
      db.filter (fun r => !(r.workspace_id == w)) := by
  induction db with
  | nil => rfl
  | cons x xs ih =>
    rw [List.map_cons]
    by_cases hx : x.workspace_id = w
    · have h1 : (!(x.workspace_id == w)) = false := by simp [hx]
      have h2 : (!((f x).workspace_id == w)) = false := by simp [hws x, hx]
      simp [List.filter_cons, h1, h2, ih]
    · have h1 : (!(x.workspace_id == w)) = true := by simp [hx]
      rw [hid x hx]
      simp [List.filter_cons, h1, ih]

/-- Rows produced by `search_semantic` all belong to the store's workspace. -/
theorem search_semantic_mem_ws (f32val : Nat → ℝ) (m : MemoryManager)
    (db : DB) (qe : List ℝ) (limit : Nat) (t : ℝ) (x : MemoryWithScore)
    (hx : x ∈ search_semantic f32val m db qe limit t) :
    x.memory.workspace_id = m.workspace_id := by
  unfold search_semantic at hx
  have hx1 := List.mem_of_mem_take hx
  rw [mem_sortBy] at hx1
  have hx2 := List.mem_filter.mp hx1 |>.1
  obtain ⟨r, hr, hsome⟩ := List.mem_filterMap.mp hx2
  unfold semantic_entry at hsome
  by_cases hws : (r.workspace_id == m.workspace_id) = true
  · rw [if_pos hws] at hsome
    cases hemb : r.embedding with
    | none => rw [hemb] at hsome; exact absurd hsome (by simp)
    | some blob =>
      rw [hemb] at hsome
      dsimp only at hsome
      cases hsome
      rw [beq_iff_eq] at hws
      exact hws
  · rw [if_neg hws] at hsome
    exact absurd hsome (by simp)

/-- Rows produced by `search_keyword` all belong to the store's workspace. -/
theorem search_keyword_mem_ws (ftsMatch : String → Row → Bool)
    (bm25 : String → Row → ℝ) (m : MemoryManager) (db : DB) (query : String)
    (limit : Nat) (x : MemoryWithScore)
    (hx : x ∈ search_keyword ftsMatch bm25 m db query limit) :
    x.memory.workspace_id = m.workspace_id := by
  unfold search_keyword at hx
  obtain ⟨r, hr, hgx⟩ := List.mem_map.mp hx
  have hr1 := List.mem_of_mem_take hr
  rw [mem_sortBy] at hr1
  have hr2 := List.mem_filter.mp hr1 |>.2
  rw [Bool.and_eq_true, beq_iff_eq] at hr2
  rw [← hgx]
  exact hr2.2

/-- C4: every operation is scoped to the store's workspace: reads only return
its rows, a foreign id is "not found", and no mutation touches a row of a
different workspace (the sub-list of foreign rows is preserved exactly). -/
theorem workspace_isolation (m : MemoryManager) (db : DB) (id : String) :
    (∀ mem, get_memory m db id = some mem →
      mem.workspace_id = m.workspace_id) ∧
    ((∀ r ∈ db, r.id = id → r.workspace_id ≠ m.workspace_id) →
      get_memory m db id = none) ∧
    ((delete_memory m db id).1.filter
        (fun r => !(r.workspace_id == m.workspace_id)) =
      db.filter (fun r => !(r.workspace_id == m.workspace_id))) ∧
    (∀ input now db' mem, update_memory m db id input now = .ok (db', mem) →
      db'.filter (fun r => !(r.workspace_id == m.workspace_id)) =
        db.filter (fun r => !(r.workspace_id == m.workspace_id))) ∧
    (∀ emb mdl now, (store_embedding m db id emb mdl now).filter
        (fun r => !(r.workspace_id == m.workspace_id)) =
      db.filter (fun r => !(r.workspace_id == m.workspace_id))) ∧
    (∀ now, (increment_access m db id now).filter
        (fun r => !(r.workspace_id == m.workspace_id)) =
      db.filter (fun r => !(r.workspace_id == m.workspace_id))) ∧
    (∀ filters mem, mem ∈ (list_memories m db filters).1 →
      mem.workspace_id = m.workspace_id) ∧
    (∀ ftsMatch bm25 query limit x,
      x ∈ search_keyword ftsMatch bm25 m db query limit →
      x.memory.workspace_id = m.workspace_id) ∧
    (∀ f32val qe limit t x, x ∈ search_semantic f32val m db qe limit t →
      x.memory.workspace_id = m.workspace_id) ∧
    (∀ ftsMatch bm25 f32val query qe limit t x,
      x ∈ search_hybrid ftsMatch bm25 f32val m db query qe limit t →
      x.memory.workspace_id = m.workspace_id) := by
  have hcond : ∀ g : Row → Row, (∀ r, (g r).workspace_id = r.workspace_id) →
      ∀ r : Row, ((if r.id == id && r.workspace_id == m.workspace_id then g r
        else r).workspace_id = r.workspace_id) := by
    intro g hg r
    by_cases hr2 : (r.id == id && r.workspace_id == m.workspace_id) = true
    · rw [if_pos hr2]; exact hg r
    · rw [if_neg hr2]
  have hkeep : ∀ g : Row → Row, ∀ r : Row,
      r.workspace_id ≠ m.workspace_id →
      (if r.id == id && r.workspace_id == m.workspace_id then g r else r) =
        r := by
    intro g r hr
    rw [if_neg]
    simp only [Bool.and_eq_true, beq_iff_eq, beq_iff_eq, not_and]
    exact fun _ => hr
  refine ⟨?_, ?_, ?_, ?_, ?_, ?_, ?_, ?_, ?_, ?_⟩
  · intro mem h
    obtain ⟨r, _, hp, hmem⟩ := get_memory_eq_some h
    rw [Bool.and_eq_true, beq_iff_eq, beq_iff_eq] at hp
    rw [hmem]
    exact hp.2
  · intro hforeign
    unfold get_memory
    rw [List.find?_eq_none.mpr]
    · rfl
    · intro x hx
      by_cases hxid : x.id = id
      · simp [hforeign x hx hxid]
      · simp [hxid]
  · exact filter_filter_of_imp _ _ db fun r hq => by
      rw [Bool.not_eq_true'] at hq ⊢
      simp only [Bool.and_eq_false_iff]
      right
      exact hq
  · intro input now db' mem h
    unfold update_memory at h
    split at h
    · exact absurd h (by simp)
    · rename_i existing hget
      dsimp only at h
      split at h
      · cases h
        exact filter_notws_map m.workspace_id _
          (hcond (update_row input existing now) fun r => rfl)
          (hkeep (update_row input existing now)) db
      · exact absurd h (by simp)
  · intro emb mdl now
    unfold store_embedding
    dsimp only
    have hg : ∀ r : Row,
        ((fun x : Row =>
            { x with
                embedding := some (f32_vec_to_bytes emb)
                embedding_model := some mdl
                updated_at := now }) r).workspace_id = r.workspace_id :=
      fun r => rfl
    exact filter_notws_map m.workspace_id _ (hcond _ hg) (hkeep _) db
  · intro now
    unfold increment_access
    have hg : ∀ r : Row,
        ((fun x : Row =>
            { x with
                access_count := x.access_count + 1
                last_accessed_at := some now }) r).workspace_id =
          r.workspace_id :=
      fun r => rfl
    exact filter_notws_map m.workspace_id _ (hcond _ hg) (hkeep _) db
  · intro filters mem hmem
    unfold list_memories at hmem
    dsimp only at hmem
    obtain ⟨r, hr, hrmem⟩ := List.mem_map.mp hmem
    have hr1 := List.mem_of_mem_take hr
    have hr2 := List.mem_of_mem_drop hr1
    rw [mem_sortBy] at hr2
    have hr3 := List.mem_filter.mp hr2 |>.2
    unfold filterPred at hr3
    rw [Bool.and_eq_true, Bool.and_eq_true, beq_iff_eq] at hr3
    rw [← hrmem]
    exact hr3.1.1
  · intro ftsMatch bm25 query limit x hx
    exact search_keyword_mem_ws ftsMatch bm25 m db query limit x hx
  · intro f32val qe limit t x hx
    exact search_semantic_mem_ws f32val m db qe limit t x hx
  · intro ftsMatch bm25 f32val query qe limit t x hx
    unfold search_hybrid at hx
    cases qe with
    | none => exact search_keyword_mem_ws ftsMatch bm25 m db query limit x hx
    | some emb =>
      dsimp only at hx
      split at hx
      · exact search_keyword_mem_ws ftsMatch bm25 m db query limit x hx
      · exact search_semantic_mem_ws f32val m db emb limit t x hx

/-- A store for a different workspace id `"ws2"`. -/
def mgr2 : MemoryManager := ⟨"ws2"⟩

/-- Witness for C4: a row stored under workspace `"ws1"` is not found through
a store opened on workspace `"ws2"`, and deleting its id through that store
leaves it intact. -/
theorem workspace_isolation_witness :
    get_memory mgr2 [sampleRow] "m1" = none ∧
    (delete_memory mgr2 [sampleRow] "m1").1.filter
        (fun r => !(r.workspace_id == mgr2.workspace_id)) =
      [sampleRow].filter
        (fun r => !(r.workspace_id == mgr2.workspace_id)) := by
  constructor
  · apply (workspace_isolation mgr2 [sampleRow] "m1").2.1
    intro r hr _
    rw [List.mem_singleton] at hr
    subst hr
    decide
  · exact (workspace_isolation mgr2 [sampleRow] "m1").2.2.1

theorem semantic_entry_some {f32val : Nat → ℝ} {qe : List ℝ}
    {m : MemoryManager} {r : Row} {x : MemoryWithScore}
    (h : semantic_entry f32val qe m r = some x) :
    r.workspace_id = m.workspace_id ∧ ∃ blob, r.embedding = some blob ∧
      x.memory = row_to_memory r ∧ x.match_type = "semantic" ∧
      x.score = cosine_similarity qe ((bytes_to_f32_vec blob).map f32val) := by
  unfold semantic_entry at h
  by_cases hws : (r.workspace_id == m.workspace_id) = true
  · rw [if_pos hws] at h
    cases hemb : r.embedding with
    | none => rw [hemb] at h; exact absurd h (by simp)
    | some blob =>
      rw [hemb] at h
      dsimp only at h
      cases h
      rw [beq_iff_eq] at hws
      exact ⟨hws, blob, rfl, rfl, rfl, rfl⟩
  · rw [if_neg hws] at h
    exact absurd h (by simp)

theorem semantic_entry_eq (f32val : Nat → ℝ) (qe : List ℝ)
    (m : MemoryManager) (r : Row) (blob : List Nat)
    (hws : r.workspace_id = m.workspace_id) (hemb : r.embedding = some blob) :
    semantic_entry f32val qe m r =
      some { memory := row_to_memory r
             score := cosine_similarity qe ((bytes_to_f32_vec blob).map f32val)
             match_type := "semantic" } := by
  unfold semantic_entry
  rw [if_pos (by simp [hws]), hemb]

/-- C2: `search_semantic` draws only from embedded rows of the store's
workspace, scores them by cosine similarity against the query, keeps exactly
the scores `≥ threshold` (all below-threshold rows are discarded, and when the
limit is not saturated every qualifying row appears), sorts descending by
score, returns at most `limit` entries; any threshold above `1` yields the
empty result (in particular `threshold = 1.1`). -/
theorem search_semantic_contract (f32val : Nat → ℝ) (m : MemoryManager)
    (db : DB) (qe : List ℝ) (limit : Nat) (t : ℝ) :
    (∀ x ∈ search_semantic f32val m db qe limit t,
      x.match_type = "semantic" ∧ t ≤ x.score ∧
      ∃ r ∈ db, r.workspace_id = m.workspace_id ∧
        ∃ blob, r.embedding = some blob ∧ x.memory = row_to_memory r ∧
          x.score = cosine_similarity qe ((bytes_to_f32_vec blob).map f32val)) ∧
    (search_semantic f32val m db qe limit t).length ≤ limit ∧
    (search_semantic f32val m db qe limit t).Pairwise
      (fun a b => b.score ≤ a.score) ∧
    ((search_semantic f32val m db qe limit t).length < limit →
      ∀ r ∈ db, r.workspace_id = m.workspace_id →
        ∀ blob, r.embedding = some blob →
          t ≤ cosine_similarity qe ((bytes_to_f32_vec blob).map f32val) →
          ∃ x ∈ search_semantic f32val m db qe limit t,
            x.memory = row_to_memory r ∧
            x.score = cosine_similarity qe
              ((bytes_to_f32_vec blob).map f32val)) ∧
    (1 < t → search_semantic f32val m db qe limit t = []) := by
  have htot : ∀ a b : MemoryWithScore,
      decide (b.score ≤ a.score) = true ∨ decide (a.score ≤ b.score) = true := by
    intro a b
    rcases le_total b.score a.score with h | h
    · exact Or.inl (decide_eq_true h)
    · exact Or.inr (decide_eq_true h)
  have htrans : ∀ a b c : MemoryWithScore,
      decide (b.score ≤ a.score) = true → decide (c.score ≤ b.score) = true →
      decide (c.score ≤ a.score) = true := fun a b c h1 h2 =>
    decide_eq_true (le_trans (of_decide_eq_true h2) (of_decide_eq_true h1))
  refine ⟨?_, ?_, ?_, ?_, ?_⟩
  · intro x hx
    unfold search_semantic at hx
    dsimp only at hx
    have hx1 := List.mem_of_mem_take hx
    rw [mem_sortBy] at hx1
    obtain ⟨hx2, hsc⟩ := List.mem_filter.mp hx1
    obtain ⟨r, hr, hsome⟩ := List.mem_filterMap.mp hx2
    obtain ⟨hws, blob, hemb, hxm, hxt, hxs⟩ := semantic_entry_some hsome
    exact ⟨hxt, of_decide_eq_true hsc, r, hr, hws, blob, hemb, hxm, hxs⟩
  · unfold search_semantic
    dsimp only
    rw [List.length_take]
    exact Nat.min_le_left _ _
  · unfold search_semantic
    dsimp only
    refine List.Pairwise.sublist (List.take_sublist _ _) ?_
    refine List.Pairwise.imp (fun h => of_decide_eq_true h) ?_
    exact pairwise_sortBy _ htot htrans _
  · intro hlen r hr hws blob hemb hsc
    unfold search_semantic at hlen ⊢
    dsimp only at hlen ⊢
    set srt := sortBy (fun a b : MemoryWithScore => decide (b.score ≤ a.score))
      ((List.filterMap (semantic_entry f32val qe m) db).filter
        (fun r => decide (t ≤ r.score))) with hsrt
    rw [List.length_take] at hlen
    have h2 : srt.length < limit := by
      by_cases h : srt.length < limit
      · exact h
      · rw [Nat.min_eq_left (Nat.le_of_not_lt h)] at hlen
        exact absurd hlen (lt_irrefl _)
    rw [List.take_of_length_le (le_of_lt h2)]
    have hx0 := semantic_entry_eq f32val qe m r blob hws hemb
    have h3 : (⟨row_to_memory r,
        cosine_similarity qe ((bytes_to_f32_vec blob).map f32val),
        "semantic"⟩ : MemoryWithScore) ∈
        (List.filterMap (semantic_entry f32val qe m) db).filter
          (fun r => decide (t ≤ r.score)) :=
      List.mem_filter.mpr
        ⟨List.mem_filterMap.mpr ⟨r, hr, hx0⟩, decide_eq_true hsc⟩
    rw [hsrt]
    exact ⟨_, (mem_sortBy _ _ _).mpr h3, rfl, rfl⟩
  · intro ht
    unfold search_semantic
    dsimp only
    have hfil : (List.filterMap (semantic_entry f32val qe m) db).filter
        (fun r => decide (t ≤ r.score)) = [] := by
      rw [List.filter_eq_nil_iff]
      intro x hx
      obtain ⟨r, hr, hsome⟩ := List.mem_filterMap.mp hx
      obtain ⟨_, blob, _, _, _, hxs⟩ := semantic_entry_some hsome
      have hle1 := cosine_similarity_le_one qe ((bytes_to_f32_vec blob).map f32val)
      simp only [decide_eq_true_eq]
      intro hle
      rw [hxs] at hle
      linarith
    rw [hfil]
    simp [sortBy]

/-- A row of workspace `"ws1"` carrying a stored embedding. -/
def rowE : Row :=
  { sampleRow with
      id := "m2"
      embedding := some (f32_vec_to_bytes [0])
      embedding_model := some "test-model" }

/-- A degenerate `f32` valuation (enough for threshold edge cases). -/
def f32val0 : Nat → ℝ := fun _ => 0

/-- Witness for C2: with threshold `1.1` the result is empty even though an
embedded row exists in the workspace. -/
theorem search_semantic_contract_witness :
    search_semantic f32val0 mgr1 [rowE] [1] 5 1.1 = [] :=
  (search_semantic_contract f32val0 mgr1 [rowE] [1] 5 1.1).2.2.2.2
    (by norm_num)

/-- C1: `search_hybrid` returns the semantic results verbatim whenever an
embedding is supplied and semantic search is non-empty, and returns exactly
the keyword results for the same query text when no embedding is supplied or
semantic search is empty. -/
theorem search_hybrid_policy (ftsMatch : String → Row → Bool)
    (bm25 : String → Row → ℝ) (f32val : Nat → ℝ) (m : MemoryManager) (db : DB)
    (query : String) (qe : Option (List ℝ)) (limit : Nat) (t : ℝ) :
    (∀ emb, qe = some emb →
      search_semantic f32val m db emb limit t ≠ [] →
      search_hybrid ftsMatch bm25 f32val m db query qe limit t =
        search_semantic f32val m db emb limit t) ∧
    (qe = none →
      search_hybrid ftsMatch bm25 f32val m db query qe limit t =
        search_keyword ftsMatch bm25 m db query limit) ∧
    (∀ emb, qe = some emb →
      search_semantic f32val m db emb limit t = [] →
      search_hybrid ftsMatch bm25 f32val m db query qe limit t =
        search_keyword ftsMatch bm25 m db query limit) := by
  refine ⟨?_, ?_, ?_⟩
  · intro emb hqe hne
    subst hqe
    unfold search_hybrid
    dsimp only
    rw [if_neg (by simp [List.isEmpty_iff, hne])]
  · intro hqe
    subst hqe
    rfl
  · intro emb hqe he
    subst hqe
    unfold search_hybrid
    dsimp only
    rw [if_pos (by simp [List.isEmpty_iff, he])]

/-- A trivial external FTS engine for the witness. -/
def fts0 : String → Row → Bool := fun _ _ => false

/-- A trivial external bm25 score for the witness. -/
def bm0 : String → Row → ℝ := fun _ _ => 0

/-- Witness for C1: with no embedding supplied, hybrid search is exactly
keyword search. -/
theorem search_hybrid_policy_witness :
    search_hybrid fts0 bm0 f32val0 mgr1 [sampleRow] "dark" none 5 0.7 =
      search_keyword fts0 bm0 mgr1 [sampleRow] "dark" 5 :=
  (search_hybrid_policy fts0 bm0 f32val0 mgr1 [sampleRow] "dark" none 5
    0.7).2.1 rfl
